import Mathlib

/-!
Verification of the `gazeta` Telegram digest collector.

The Python source is shallowly embedded: SQLite tables become Lean lists of
rows, `datetime` timestamps become `Nat` instants, Python strings become
`String` (or `List Char` where character-level reasoning is needed), and
fallible calls become `Except`-valued functions threaded through explicit
state.
-/

set_option maxRecDepth 8000

namespace Gazeta

/-! ### Digest generator: down-sampling of representative texts

Embeds the cap/stride logic of `DigestGenerator.generate_digest_for_chat`
(`src/digest_generator.py`): when more than `max_messages = 200` texts are
available, Python takes `message_texts[::step][:200]` with
`step = len(message_texts) // 200`.
-/

/-- Model of Python slicing `l[::step]` for a positive stride: keep every
`step`-th element starting from index 0.  (Python raises on `step = 0`;
the caller below only ever uses `step ≥ 1`, where this model is exact.) -/
def everyNth : List α → Nat → List α
  | [], _ => []
  | x :: xs, step => x :: everyNth (xs.drop (step - 1)) step
termination_by l _ => l.length
decreasing_by simp [List.length_drop]; omega

/-- The down-sampling step of `DigestGenerator.generate_digest_for_chat`:
`max_messages = 200`; if the list is longer, take stride `len // 200`
through it and keep the first 200. -/
def sampleTexts (texts : List String) : List String :=
  if 200 < texts.length then
    (everyNth texts (texts.length / 200)).take 200
  else
    texts

theorem everyNth_sublist (l : List α) (s : Nat) : (everyNth l s).Sublist l := by
  induction l, s using everyNth.induct with
  | case1 => simp [everyNth]
  | case2 x xs step ih =>
    rw [everyNth]
    exact List.Sublist.cons₂ x (ih.trans (List.drop_sublist _ _))

theorem everyNth_one (l : List α) : everyNth l 1 = l := by
  induction l with
  | nil => simp [everyNth]
  | cons x xs ih => rw [everyNth]; simpa using ih

theorem length_le_mul_length_everyNth (l : List α) (s : Nat) :
    0 < s → l.length ≤ s * (everyNth l s).length := by
  induction l, s using everyNth.induct with
  | case1 => simp [everyNth]
  | case2 x xs s ih =>
    intro hs
    rw [everyNth]
    simp only [List.length_cons]
    have hih := ih hs
    have hlen : (xs.drop (s - 1)).length = xs.length - (s - 1) := by
      simp [List.length_drop]
    rw [hlen] at hih
    calc xs.length + 1 ≤ (xs.length - (s - 1)) + s := by omega
    _ ≤ s * (everyNth (xs.drop (s - 1)) s).length + s := Nat.add_le_add_right hih s
    _ = s * ((everyNth (xs.drop (s - 1)) s).length + 1) := by ring

/-- C7: for more than 200 texts the sample has at most 200 entries and is a
strictly order-preserving subsequence (a sublist) of the input; for at most
200 texts the list is passed through unchanged. -/
theorem sampleTexts_cap_and_sublist (texts : List String) :
    (200 < texts.length →
      (sampleTexts texts).length ≤ 200 ∧ (sampleTexts texts).Sublist texts) ∧
    (texts.length ≤ 200 → sampleTexts texts = texts) := by
  constructor
  · intro h
    rw [sampleTexts, if_pos h]
    constructor
    · simp [List.length_take]
    · exact (List.take_sublist _ _).trans (everyNth_sublist _ _)
  · intro h
    rw [sampleTexts, if_neg (by omega)]

/-- C7 witness: a concrete 201-element list is down-sampled to at most 200
entries forming a sublist, and a concrete 150-element list passes through. -/
theorem sampleTexts_cap_and_sublist_witness :
    ((sampleTexts (List.replicate 201 "t")).length ≤ 200 ∧
      (sampleTexts (List.replicate 201 "t")).Sublist (List.replicate 201 "t")) ∧
    sampleTexts (List.replicate 150 "t") = List.replicate 150 "t" :=
  ⟨(sampleTexts_cap_and_sublist (List.replicate 201 "t")).1
      (by simp only [List.length_replicate]; omega),
   (sampleTexts_cap_and_sublist (List.replicate 150 "t")).2
      (by simp only [List.length_replicate]; omega)⟩

/-- C9: whenever more than 200 texts are present the sample has exactly 200
entries (the stride `len / 200` is at least 1 and the strided selection has
at least 200 elements before truncation), and for between 201 and 399 texts
the stride is 1, so the sample is exactly the first 200 texts. -/
theorem sampleTexts_length_eq (texts : List String) (h : 200 < texts.length) :
    (sampleTexts texts).length = 200 ∧
    (texts.length < 400 → sampleTexts texts = texts.take 200) := by
  have hstep : 0 < texts.length / 200 := by omega
  constructor
  · rw [sampleTexts, if_pos h, List.length_take]
    have h1 : texts.length ≤ (texts.length / 200) * (everyNth texts (texts.length / 200)).length :=
      length_le_mul_length_everyNth texts _ hstep
    have h2 : (texts.length / 200) * 200 ≤ texts.length := Nat.div_mul_le_self _ _
    have h3 : (texts.length / 200) * 200 ≤ (texts.length / 200) * (everyNth texts (texts.length / 200)).length := le_trans h2 h1
    have h4 : 200 ≤ (everyNth texts (texts.length / 200)).length :=
      Nat.le_of_mul_le_mul_left h3 hstep
    omega
  · intro h400
    have : texts.length / 200 = 1 := by omega
    rw [sampleTexts, if_pos h, this, everyNth_one]

/-- C9 witness: 250 concrete texts are down-sampled to exactly 200 entries,
namely the first 200 of them. -/
theorem sampleTexts_length_eq_witness :
    (sampleTexts (List.replicate 250 "m")).length = 200 ∧
    (250 < 400 → sampleTexts (List.replicate 250 "m") = (List.replicate 250 "m").take 200) := by
  have h0 : (List.replicate 250 "m").length = 250 := List.length_replicate 250 "m"
  have h := sampleTexts_length_eq (List.replicate 250 "m") (by omega)
  exact ⟨h.1, fun _ => h.2 (by omega)⟩

/-! ### Report formatter: per-message rendering and HTML escaping

Embeds `ReportFormatter._format_message` and `ReportFormatter._escape_html`
(`src/report_formatter.py`).  A message reaches the formatter as a dict with
`text`, `link` and `date` fields; `date` is rendered to an `HH:MM` string
(or used as-is when already a string), which we model as an optional
pre-rendered time string.  Python truthiness tests on strings are modelled
as inequality with the empty string.
-/

structure RenderMsg where
  text : String
  link : String
  timeStr : Option String
deriving DecidableEq

/-- One step of `str.replace(old, new)` for a single-character pattern:
every occurrence of `c` is replaced by `rep`.  (All three patterns used by
`_escape_html` are single characters, for which Python's substring
replacement coincides with this character-wise substitution.) -/
def replaceChar (c : Char) (rep : List Char) : List Char → List Char
  | [] => []
  | x :: xs => if x = c then rep ++ replaceChar c rep xs else x :: replaceChar c rep xs

/-- `ReportFormatter._escape_html`: sequential replacement of `&`, `<`, `>`
in exactly that order (the `replacements` dict iterates in insertion
order), each replacement operating on the output of the previous one. -/
def escapeHtml (text : String) : String :=
  String.mk (replaceChar '>' "&gt;".data
    (replaceChar '<' "&lt;".data
      (replaceChar '&' "&amp;".data text.data)))

/-- The `time_str` marker prepended by `_format_message` when the message
carries a date. -/
def timeMarker : Option String → String
  | some ts => "🕐 " ++ ts ++ " "
  | none => ""

/-- The truncation step of `_format_message`:
`if text and len(text) > max_length: text = text[:max_length] + "..."`
(the truthiness test on `text` is subsumed by the length test). -/
def truncBody (t : String) : String :=
  if 300 < t.length then t.take 300 ++ "..." else t

/-- `ReportFormatter._format_message`: truncate the body, prepend the time
marker, escape the (possibly truncated) body, then append the unescaped
permalink marker and a blank line. -/
def formatMessage (msg : RenderMsg) : String :=
  let text := truncBody msg.text
  let f1 := timeMarker msg.timeStr
  let f2 := if text = "" then f1 else f1 ++ escapeHtml text
  let f3 := if msg.link = "" then f2 else f2 ++ " <a href=\"" ++ msg.link ++ "\">↗</a>"
  f3 ++ "\n\n"

theorem empty_str_append (s : String) : "" ++ s = s :=
  String.ext (by simp [String.data_append])

theorem take300_dots_ne_empty (t : String) : t.take 300 ++ "..." ≠ "" := by
  intro h
  have hl := congrArg String.length h
  simp [String.length_append] at hl
  exact absurd hl.2 (by decide)

/-- C6: the body `"A & <b>bold</b>"` renders as
`"A &amp; &lt;b&gt;bold&lt;/b&gt;"` (ampersand escaped first, so generated
entities are never double-escaped); any body longer than 300 characters is
truncated to 300 characters plus the ellipsis marker before escaping; and
the appended permalink marker carries the link verbatim, unescaped. -/
theorem formatMessage_escapes_in_order :
    escapeHtml "A & <b>bold</b>" = "A &amp; &lt;b&gt;bold&lt;/b&gt;" ∧
    formatMessage ⟨"A & <b>bold</b>", "", none⟩ = "A &amp; &lt;b&gt;bold&lt;/b&gt;" ++ "\n\n" ∧
    (∀ t : String, 300 < t.length →
      formatMessage ⟨t, "", none⟩ = escapeHtml (t.take 300 ++ "...") ++ "\n\n") ∧
    (∀ t link : String, ∀ ts : Option String, link ≠ "" →
      ∃ pre : String, formatMessage ⟨t, link, ts⟩ =
        pre ++ (" <a href=\"" ++ link ++ "\">↗</a>" ++ "\n\n")) := by
  refine ⟨by decide, by decide, ?_, ?_⟩
  · intro t ht
    have htrunc : truncBody t = t.take 300 ++ "..." := by rw [truncBody, if_pos ht]
    simp [formatMessage, htrunc, take300_dots_ne_empty t, timeMarker, empty_str_append]
  · intro t link ts hlink
    refine ⟨(if truncBody t = "" then timeMarker ts
      else timeMarker ts ++ escapeHtml (truncBody t)), ?_⟩
    simp [formatMessage, hlink, String.append_assoc]

/-- C6 witness: a 301-character body is truncated-then-escaped, and a
concrete link is appended verbatim. -/
theorem formatMessage_escapes_in_order_witness :
    formatMessage ⟨String.mk (List.replicate 301 'a'), "", none⟩ =
      escapeHtml ((String.mk (List.replicate 301 'a')).take 300 ++ "...") ++ "\n\n" ∧
    ∃ pre : String, formatMessage ⟨"hi", "https://t.me/c/1/2", none⟩ =
      pre ++ (" <a href=\"" ++ "https://t.me/c/1/2" ++ "\">↗</a>" ++ "\n\n") :=
  ⟨formatMessage_escapes_in_order.2.2.1 (String.mk (List.replicate 301 'a')) (by decide),
   formatMessage_escapes_in_order.2.2.2 "hi" "https://t.me/c/1/2" none (by decide)⟩

/-! ### Database model

Embeds the SQLite schema of `Database.init_schema` (`src/database.py`):
tables `sources` (UNIQUE identifier), `messages` (UNIQUE(source_id,
message_id)) and `reports` (UNIQUE date) become lists of rows, AUTOINCREMENT
rowids become per-table counters, and the connection-level
`last_insert_rowid` (which `cursor.lastrowid` reports after any statement
that lexically is an INSERT, whether or not a row was actually inserted)
becomes an explicit field updated only by successful inserts.  `TIMESTAMP`
values become `Nat` instants; `DATE` report keys stay `String`
(`YYYY-MM-DD`).  The `created_at` columns are never read by the program and
are omitted.
-/

structure Source where
  id : Nat
  identifier : String
  type : String
  title : Option String
  username : Option String
  lastUpdated : Nat
deriving DecidableEq

structure Msg where
  sourceId : Nat
  messageId : Nat
  date : Nat
  text : Option String
  link : Option String
  senderId : Option Nat
  senderName : Option String
deriving DecidableEq

structure Report where
  id : Nat
  date : String
  content : String
  sentAt : Option Nat
deriving DecidableEq

structure DB where
  sources : List Source
  nextSourceId : Nat
  messages : List Msg
  nextMessageId : Nat
  reports : List Report
  nextReportId : Nat
  lastInsertRowid : Nat
deriving DecidableEq

def DB.empty : DB :=
  ⟨[], 1, [], 1, [], 1, 0⟩

/-- `Database.add_source`: upsert on `identifier`.  On conflict the update
sets `title = COALESCE(?, title)` and `username = COALESCE(?, username)` —
a SQL `NULL` (Python `None`, here `Option.none`) keeps the stored value,
while any non-NULL value, including the empty string, overwrites — and
refreshes `last_updated`.  The id is then read back with
`SELECT id FROM sources WHERE identifier = ?`; after the upsert that row
always exists, so the Python `None` fallback is unreachable and the id is
returned directly. -/
def DB.addSource (db : DB) (identifier stype : String)
    (title username : Option String) (now : Nat) : Nat × DB :=
  if db.sources.any (fun s => s.identifier == identifier) then
    let sources' := db.sources.map (fun s =>
      if s.identifier == identifier then
        { s with title := title.or s.title,
                 username := username.or s.username,
                 lastUpdated := now }
      else s)
    let rid := match db.sources.find? (fun s => s.identifier == identifier) with
      | some s => s.id
      | none => 0
    (rid, { db with sources := sources' })
  else
    (db.nextSourceId,
     { db with
        sources := db.sources ++
          [⟨db.nextSourceId, identifier, stype, title, username, now⟩],
        nextSourceId := db.nextSourceId + 1,
        lastInsertRowid := db.nextSourceId })

/-- `Database.add_message`: a plain INSERT guarded by
`UNIQUE(source_id, message_id)`; a duplicate pair raises `IntegrityError`,
which is caught and reported as `false` (the row is untouched), otherwise
the row is appended and `true` returned. -/
def DB.addMessage (db : DB) (m : Msg) : Bool × DB :=
  if db.messages.any (fun r => r.sourceId == m.sourceId && r.messageId == m.messageId) then
    (false, db)
  else
    (true,
     { db with
        messages := db.messages ++ [m],
        nextMessageId := db.nextMessageId + 1,
        lastInsertRowid := db.nextMessageId })

/-- Row order produced by `ORDER BY m.date`. -/
def dateLe (a b : Msg) : Prop := a.date ≤ b.date

instance : DecidableRel dateLe := fun a b => Nat.decLe a.date b.date

instance : IsTotal Msg dateLe := ⟨fun a b => Nat.le_total a.date b.date⟩

instance : IsTrans Msg dateLe := ⟨fun _ _ _ hab hbc => Nat.le_trans hab hbc⟩

/-- Python truthiness of the optional `source_id` argument
(`if source_id:` — both `None` and `0` disable the per-source filter). -/
def sourceTruthy (sourceId : Option Nat) : Bool := sourceId.getD 0 != 0

/-- The WHERE clause of `Database.get_messages_by_date_range`:
`m.date >= ? AND m.date < ?`, plus `m.source_id = ?` when a truthy
source id was supplied. -/
def inWindow (startDate endDate : Nat) (sourceId : Option Nat) (m : Msg) : Bool :=
  startDate ≤ m.date && m.date < endDate &&
    (!sourceTruthy sourceId || m.sourceId == sourceId.getD 0)

/-- `Database.get_messages_by_date_range`: messages in the half-open window
`[start, end)`, inner-joined with `sources` on `m.source_id = s.id` (the
join only attaches source metadata columns, so each message row appears
once per matching source row), ordered ascending by `m.date`. -/
def DB.getMessagesByDateRange (db : DB) (startDate endDate : Nat)
    (sourceId : Option Nat) : List Msg :=
  List.insertionSort dateLe
    ((db.messages.filter (inWindow startDate endDate sourceId)).flatMap
      (fun m => (db.sources.filter (fun s => s.id == m.sourceId)).map (fun _ => m)))

/-- `Database.save_report`: upsert on `date`; on conflict only `content` is
rewritten (`sent_at` and the rowid are untouched).  The function returns
`cursor.lastrowid`, which after an upsert that took the update path is
simply the connection's last successfully inserted rowid — no insert
happened, so it is left stale. -/
def DB.saveReport (db : DB) (date content : String) : Nat × DB :=
  if db.reports.any (fun r => r.date == date) then
    (db.lastInsertRowid,
     { db with reports := db.reports.map (fun r =>
        if r.date == date then { r with content := content } else r) })
  else
    (db.nextReportId,
     { db with
        reports := db.reports ++ [⟨db.nextReportId, date, content, none⟩],
        nextReportId := db.nextReportId + 1,
        lastInsertRowid := db.nextReportId })

/-- `Database.mark_report_sent`: `UPDATE reports SET sent_at = ? WHERE id = ?`. -/
def DB.markReportSent (db : DB) (reportId : Nat) (now : Nat) : DB :=
  { db with reports := db.reports.map (fun r =>
      if r.id == reportId then { r with sentAt := some now } else r) }

/-- `Database.get_report_by_date`: `SELECT * FROM reports WHERE date = ?`,
first row or `None`. -/
def DB.getReportByDate (db : DB) (date : String) : Option Report :=
  db.reports.find? (fun r => r.date == date)

/-! ### Collector

Embeds `MessageCollector.collect_from_source` and
`MessageCollector.collect_from_all_sources` (`src/collector.py`).
`TelegramService.get_entity_info` re-raises its errors, modelled as
`Except`; `TelegramService.get_messages` catches internally and returns
`[]` on error, so it is total here.
-/

structure Fetched where
  messageId : Nat
  date : Nat
  text : Option String
  link : Option String
  senderId : Option Nat
  senderName : Option String
deriving DecidableEq

structure TgEnv where
  entityInfo : String → Except String (Option String × Option String)
  fetchMessages : String → Nat → Nat → List Fetched

structure CollectStats where
  totalSources : Nat
  totalMessages : Nat
  newMessages : Nat
  failedSources : Nat
deriving DecidableEq

/-- `MessageCollector.collect_from_source`: resolve metadata, upsert the
source, fetch the window and insert each message, counting the new ones.
Every exception inside the body is caught by the function's own
`except Exception` handler, which returns `(0, 0)` — mutations already
committed (such as the source upsert) persist. -/
def collectFromSource (tg : TgEnv) (db : DB) (identifier stype : String)
    (startDate endDate now : Nat) : DB × Nat × Nat :=
  match tg.entityInfo identifier with
  | .error _ => (db, 0, 0)
  | .ok info =>
    let rs := db.addSource identifier stype info.1 info.2 now
    let msgs := tg.fetchMessages identifier startDate endDate
    let step := msgs.foldl (fun acc f =>
      let r := acc.1.addMessage
        ⟨rs.1, f.messageId, f.date, f.text, f.link, f.senderId, f.senderName⟩
      (r.2, acc.2 + (if r.1 then 1 else 0))) (rs.2, 0)
    (step.1, msgs.length, step.2)

/-- `MessageCollector.collect_from_all_sources`: iterate over the sources,
summing the per-source counts.  Its own `try/except` around each
`collect_from_source` call would append to `failed_sources`, but
`collect_from_source` already catches every exception and returns `(0, 0)`
instead of raising, so that handler is unreachable and the
`failed_sources` count in the returned statistics is always zero. -/
def collectFromAllSources (tg : TgEnv) (db : DB)
    (srcs : List (String × String)) (startDate endDate now : Nat) :
    DB × CollectStats :=
  let step := srcs.foldl (fun acc src =>
    let r := collectFromSource tg acc.1 src.1 src.2 startDate endDate now
    (r.1, acc.2.1 + r.2.1, acc.2.2 + r.2.2)) (db, 0, 0)
  (step.1, ⟨srcs.length, step.2.1, step.2.2, 0⟩)

/-! ### C10: the id returned by the `save_report` update path is stale -/

/-- C10: a state in which the report row for a date `d` already exists and
`save_report(d, content)` takes its conflict/update branch, returning a
`cursor.lastrowid` (stale: the rowid of the most recent actual insert)
that differs from the id of `d`'s row — so `mark_report_sent` with the
returned id updates a different row and leaves `d`'s `sent_at` unchanged.
Concretely: after inserting reports for 2024-01-01 (id 1) and 2024-01-02
(id 2), re-saving 2024-01-01 returns 2, and marking id 2 sent stamps
2024-01-02 while 2024-01-01 keeps `sent_at = NULL`. -/
theorem saveReport_update_returns_stale_rowid :
    ((((DB.empty.saveReport "2024-01-01" "a").2.saveReport "2024-01-02" "b").2.saveReport
        "2024-01-01" "c").1 = 2) ∧
    (((((DB.empty.saveReport "2024-01-01" "a").2.saveReport "2024-01-02" "b").2.saveReport
        "2024-01-01" "c").2.getReportByDate "2024-01-01").map Report.id = some 1) ∧
    ((((((DB.empty.saveReport "2024-01-01" "a").2.saveReport "2024-01-02" "b").2.saveReport
        "2024-01-01" "c").2.markReportSent 2 99).getReportByDate "2024-01-01").map
        Report.sentAt = some none) ∧
    ((((((DB.empty.saveReport "2024-01-01" "a").2.saveReport "2024-01-02" "b").2.saveReport
        "2024-01-01" "c").2.markReportSent 2 99).getReportByDate "2024-01-02").map
        Report.sentAt = some (some 99)) := by
  decide

/-! ### C3: a failing source is never recorded in the statistics -/

/-- A Telegram environment in which metadata resolution throws for the
source `"bad"` and succeeds for `"good"`, which has two messages in the
window `[0, 100)`. -/
def tgOneBad : TgEnv where
  entityInfo := fun ident =>
    if ident == "bad" then Except.error "ChannelPrivateError"
    else Except.ok (some "Good channel", some "good")
  fetchMessages := fun ident _ _ =>
    if ident == "good" then
      [⟨11, 60, some "hello", some "https://t.me/good/11", none, none⟩,
       ⟨12, 70, some "world", some "https://t.me/good/12", none, none⟩]
    else []

/-- C3: with sources `["bad", "good"]` where `"bad"`'s metadata resolution
throws, the run counts zero for `"bad"`, keeps `"good"`'s two messages —
but the returned statistics report `failed_sources = 0`: the appending to
`failed_sources` in `collect_from_all_sources` is dead code because
`collect_from_source` catches the exception itself and returns `(0, 0)`.
-/
theorem collect_failed_source_not_recorded :
    (collectFromSource tgOneBad DB.empty "bad" "channel" 0 100 50 = (DB.empty, 0, 0)) ∧
    ((collectFromAllSources tgOneBad DB.empty [("bad", "channel"), ("good", "channel")]
        0 100 50).2 = ⟨2, 2, 2, 0⟩) ∧
    ((collectFromAllSources tgOneBad DB.empty [("bad", "channel"), ("good", "channel")]
        0 100 50).1.messages.length = 2) := by
  decide

/-! ### C8: empty strings do overwrite stored source metadata -/

/-- C8 counterexample: a source stored with title `"T"` and username `"U"`;
a second `add_source` call supplying an empty-string title and a missing
username.  `COALESCE('', title)` picks the empty string, so the stored
non-empty title is overwritten — the claim that a missing *or empty*
value never overwrites is false (only SQL `NULL`, i.e. Python `None`, is
protected). -/
theorem addSource_empty_string_overwrites :
    ((DB.mk [⟨1, "chan", "channel", some "T", some "U", 0⟩] 2 [] 1 [] 1 0).addSource
        "chan" "channel" (some "") none 5).2.sources.map Source.title = [some ""] ∧
    ((DB.mk [⟨1, "chan", "channel", some "T", some "U", 0⟩] 2 [] 1 [] 1 0).addSource
        "chan" "channel" (some "") none 5).2.sources.map Source.username = [some "U"] := by
  decide

/-! ### Helper lemmas about keyed updates on row lists -/

theorem find?_eq_head?_filter (p : α → Bool) (l : List α) :
    l.find? p = (l.filter p).head? := by
  induction l with
  | nil => rfl
  | cons x xs ih =>
    cases hx : p x with
    | true =>
      rw [List.find?_cons_of_pos _ hx, List.filter_cons_of_pos hx]
      rfl
    | false =>
      rw [List.find?_cons_of_neg _ (by simp [hx]), List.filter_cons_of_neg (by simp [hx])]
      exact ih

theorem find?_map_update (p : α → Bool) (f : α → α) (hf : ∀ x, p (f x) = p x)
    (l : List α) (r : α) (h : l.filter p = [r]) :
    (l.map (fun x => if p x then f x else x)).find? p = some (f r) := by
  induction l with
  | nil => simp at h
  | cons x xs ih =>
    cases hx : p x with
    | true =>
      rw [List.filter_cons_of_pos hx] at h
      obtain ⟨h1, h2⟩ := List.cons_eq_cons.mp h
      subst h1
      simp only [List.map_cons, if_pos hx]
      rw [List.find?_cons_of_pos _ (by rw [hf]; exact hx)]
    | false =>
      rw [List.filter_cons_of_neg (by simp [hx])] at h
      rw [List.map_cons, if_neg (by simp [hx] : ¬ p x = true)]
      rw [List.find?_cons_of_neg _ (by simp [hx])]
      exact ih h

theorem length_filter_map_update (p : α → Bool) (f : α → α) (hf : ∀ x, p (f x) = p x)
    (l : List α) :
    ((l.map (fun x => if p x then f x else x)).filter p).length = (l.filter p).length := by
  induction l with
  | nil => rfl
  | cons x xs ih =>
    cases hx : p x <;>
      simp [List.filter_cons, hx, hf, ih]

/-! ### C8 (amended): missing values never overwrite, and the key is stable -/

/-- C8 as amended: for an identifier that already has a stored row, an
`add_source` call whose `title` and `username` arguments are missing
(Python `None`) leaves the stored values unchanged (only `last_updated` is
refreshed) and returns the id of the existing row — the same stable key the
first call returned.  (Empty strings, unlike the claim's wording, count as
supplied values and do overwrite; see the counterexample.) -/
theorem addSource_missing_values_preserved (db : DB) (s0 : Source)
    (ident stype : String) (now : Nat)
    (h : db.sources.filter (fun s => s.identifier == ident) = [s0]) :
    (db.addSource ident stype none none now).1 = s0.id ∧
    (db.addSource ident stype none none now).2.sources.find?
        (fun s => s.identifier == ident) = some { s0 with lastUpdated := now } := by
  have hs0 : s0 ∈ db.sources.filter (fun s => s.identifier == ident) := by
    rw [h]; exact List.mem_singleton_self s0
  obtain ⟨hs0mem, hs0p⟩ := List.mem_filter.mp hs0
  have hmem : db.sources.any (fun s => s.identifier == ident) = true := by
    rw [List.any_eq_true]
    exact ⟨s0, hs0mem, hs0p⟩
  constructor
  · simp only [DB.addSource, hmem, if_true]
    rw [find?_eq_head?_filter, h]
    rfl
  · simp only [DB.addSource, hmem, if_true]
    have := find?_map_update (fun s => s.identifier == ident)
      (fun s => { s with title := Option.or none s.title,
                         username := Option.or none s.username,
                         lastUpdated := now })
      (fun x => rfl) db.sources s0 h
    simpa [Option.or] using this

/-- C8 amended witness: a concrete stored source keeps its title, username
and id across an `add_source` call with both metadata arguments missing. -/
theorem addSource_missing_values_preserved_witness :
    ((DB.mk [⟨1, "chan", "channel", some "T", some "U", 0⟩] 2 [] 1 [] 1 0).addSource
        "chan" "channel" none none 5).1 = 1 ∧
    ((DB.mk [⟨1, "chan", "channel", some "T", some "U", 0⟩] 2 [] 1 [] 1 0).addSource
        "chan" "channel" none none 5).2.sources.find?
        (fun s => s.identifier == "chan") = some ⟨1, "chan", "channel", some "T", some "U", 5⟩ :=
  addSource_missing_values_preserved
    (DB.mk [⟨1, "chan", "channel", some "T", some "U", 0⟩] 2 [] 1 [] 1 0)
    ⟨1, "chan", "channel", some "T", some "U", 0⟩ "chan" "channel" 5 (by decide)

/-! ### C4: report upsert overwrites content, preserves `sent_at` -/

/-- C4: when a report row for `date` already exists (and dates are unique,
as the schema's `UNIQUE(date)` guarantees), `save_report(date, content)`
overwrites that row's content, exactly one row for the date remains,
`get_report_by_date` retrieves it, and its `sent_at` (and id) are
unchanged. -/
theorem saveReport_overwrites_content_preserves_sent (db : DB) (r : Report)
    (d c : String) (h : db.reports.filter (fun x => x.date == d) = [r]) :
    (db.saveReport d c).2.getReportByDate d = some { r with content := c } ∧
    ((db.saveReport d c).2.reports.filter (fun x => x.date == d)).length = 1 ∧
    ((db.saveReport d c).2.getReportByDate d).map Report.sentAt = some r.sentAt ∧
    ((db.saveReport d c).2.getReportByDate d).map Report.id = some r.id := by
  have hr : r ∈ db.reports.filter (fun x => x.date == d) := by
    rw [h]; exact List.mem_singleton_self r
  obtain ⟨hrmem, hrp⟩ := List.mem_filter.mp hr
  have hmem : db.reports.any (fun x => x.date == d) = true := by
    rw [List.any_eq_true]
    exact ⟨r, hrmem, hrp⟩
  have hfind : (db.saveReport d c).2.getReportByDate d = some { r with content := c } := by
    simp only [DB.saveReport, hmem, if_true, DB.getReportByDate]
    exact find?_map_update (fun x => x.date == d)
      (fun x => { x with content := c }) (fun x => rfl) db.reports r h
  refine ⟨hfind, ?_, ?_, ?_⟩
  · simp only [DB.saveReport, hmem, if_true]
    rw [length_filter_map_update (fun x => x.date == d)
      (fun x => { x with content := c }) (fun x => rfl) db.reports, h]
    rfl
  · rw [hfind]; rfl
  · rw [hfind]; rfl

/-- C4 witness: a concrete report with a set `sent_at` keeps it (and its
id) while its content is overwritten, with exactly one row for the date. -/
theorem saveReport_overwrites_content_preserves_sent_witness :
    (DB.mk [] 1 [] 1 [⟨1, "2024-01-01", "old", some 42⟩] 2 1).saveReport "2024-01-01"
        "new" |>.2.getReportByDate "2024-01-01" = some ⟨1, "2024-01-01", "new", some 42⟩ ∧
    (((DB.mk [] 1 [] 1 [⟨1, "2024-01-01", "old", some 42⟩] 2 1).saveReport "2024-01-01"
        "new").2.reports.filter (fun x => x.date == "2024-01-01")).length = 1 ∧
    (((DB.mk [] 1 [] 1 [⟨1, "2024-01-01", "old", some 42⟩] 2 1).saveReport "2024-01-01"
        "new").2.getReportByDate "2024-01-01").map Report.sentAt = some (some 42) ∧
    (((DB.mk [] 1 [] 1 [⟨1, "2024-01-01", "old", some 42⟩] 2 1).saveReport "2024-01-01"
        "new").2.getReportByDate "2024-01-01").map Report.id = some 1 :=
  saveReport_overwrites_content_preserves_sent
    (DB.mk [] 1 [] 1 [⟨1, "2024-01-01", "old", some 42⟩] 2 1)
    ⟨1, "2024-01-01", "old", some 42⟩ "2024-01-01" "new" (by decide)

/-! ### C2: window queries are half-open and ordered -/

theorem join_sources_eq_self (sources : List Source) (l : List Msg)
    (h : ∀ m ∈ l, (sources.filter (fun s => s.id == m.sourceId)).length = 1) :
    (l.flatMap (fun m => (sources.filter (fun s => s.id == m.sourceId)).map (fun _ => m)))
      = l := by
  induction l with
  | nil => rfl
  | cons x xs ih =>
    rw [List.flatMap_cons]
    obtain ⟨a, ha⟩ := List.length_eq_one.mp (h x (List.mem_cons_self x xs))
    rw [ha, List.map_cons, List.map_nil, List.singleton_append,
      ih (fun m hm => h m (List.mem_cons_of_mem x hm))]

/-- The source row and the four boundary messages of the concrete
"yesterday for day 1" scenario: timestamps are seconds since the epoch, so
day 1 spans `[86400, 172800)`. -/
def daySource : Source := ⟨1, "chan", "channel", some "C", none, 0⟩

def msgLatePrev : Msg := ⟨1, 1, 86399, some "23:59:59 of day 0", none, none, none⟩

def msgMidnight : Msg := ⟨1, 2, 86400, some "00:00:00 of day 1", none, none, none⟩

def msgNoon : Msg := ⟨1, 3, 129600, some "12:00:00 of day 1", none, none, none⟩

def msgNextMidnight : Msg := ⟨1, 4, 172800, some "00:00:00 of day 2", none, none, none⟩

def dayDB : DB :=
  ⟨[daySource], 2, [msgLatePrev, msgMidnight, msgNoon, msgNextMidnight], 5, [], 1, 0⟩

/-- C2: under the schema's foreign-key invariant (each stored message's
source id matches exactly one source row, so the metadata join neither
drops nor duplicates rows), `get_messages_by_date_range(start, end)`
returns exactly the stored messages with `start ≤ date < end` — as a
multiset (the `Perm`) and element-wise (the `iff`) — in ascending
timestamp order; and the concrete "yesterday" query for day 1 returns the
two day-1 messages, excluding both boundary instants. -/
theorem getMessagesByDateRange_half_open_ordered (db : DB) (s e : Nat)
    (hFK : ∀ m ∈ db.messages, (db.sources.filter (fun src => src.id == m.sourceId)).length = 1) :
    (∀ m, m ∈ db.getMessagesByDateRange s e none ↔
      (m ∈ db.messages ∧ s ≤ m.date ∧ m.date < e)) ∧
    (db.getMessagesByDateRange s e none).Pairwise dateLe ∧
    (db.getMessagesByDateRange s e none).Perm
      (db.messages.filter (fun m => decide (s ≤ m.date) && decide (m.date < e))) ∧
    dayDB.getMessagesByDateRange 86400 172800 none = [msgMidnight, msgNoon] := by
  have hq : db.getMessagesByDateRange s e none =
      List.insertionSort dateLe (db.messages.filter
        (fun m => decide (s ≤ m.date) && decide (m.date < e))) := by
    rw [DB.getMessagesByDateRange,
      join_sources_eq_self db.sources _ (fun m hm => hFK m (List.mem_of_mem_filter hm))]
    congr 1
    apply List.filter_congr
    intro m hm
    simp [inWindow, sourceTruthy]
  refine ⟨?_, ?_, ?_, by decide⟩
  · intro m
    rw [hq, List.Perm.mem_iff (List.perm_insertionSort dateLe _), List.mem_filter]
    simp
  · rw [hq]
    exact List.sorted_insertionSort dateLe _
  · rw [hq]
    exact List.perm_insertionSort dateLe _

/-- C2 witness: the concrete day-1 database satisfies the foreign-key
hypothesis, and the theorem yields the ordering of its yesterday query. -/
theorem getMessagesByDateRange_half_open_ordered_witness :
    (dayDB.getMessagesByDateRange 86400 172800 none).Pairwise dateLe ∧
    dayDB.getMessagesByDateRange 86400 172800 none = [msgMidnight, msgNoon] :=
  ⟨(getMessagesByDateRange_half_open_ordered dayDB 86400 172800 (by decide)).2.1,
   (getMessagesByDateRange_half_open_ordered dayDB 86400 172800 (by decide)).2.2.2⟩

/-! ### C1: message insertion is idempotent -/

/-- The `(source_id, message_id)` identity of a message row, as used by the
`UNIQUE(source_id, message_id)` constraint. -/
def pairP (sid mid : Nat) (r : Msg) : Bool :=
  r.sourceId == sid && r.messageId == mid

/-- C1: inserting a fresh `(source_id, message_id)` pair succeeds
(`inserted = true`); re-inserting the same pair with any payload returns
`false` and leaves the table untouched (never an error — the
`IntegrityError` is caught); and a window query covering the message's
timestamp afterwards returns exactly one row for that pair (under the
schema's foreign-key/uniqueness invariants on `sources`). -/
theorem addMessage_idempotent (db : DB) (m m2 : Msg)
    (hfresh : db.messages.countP (pairP m.sourceId m.messageId) = 0)
    (hsid : m2.sourceId = m.sourceId) (hmid : m2.messageId = m.messageId)
    (hsrc : (db.sources.filter (fun s => s.id == m.sourceId)).length = 1)
    (hFK : ∀ x ∈ db.messages, (db.sources.filter (fun s => s.id == x.sourceId)).length = 1)
    (s e : Nat) (hs : s ≤ m.date) (he : m.date < e) :
    (db.addMessage m).1 = true ∧
    ((db.addMessage m).2.addMessage m2).1 = false ∧
    ((db.addMessage m).2.addMessage m2).2 = (db.addMessage m).2 ∧
    (((db.addMessage m).2.addMessage m2).2.getMessagesByDateRange s e none).countP
      (pairP m.sourceId m.messageId) = 1 := by
  have hall : ∀ a ∈ db.messages, ¬ pairP m.sourceId m.messageId a = true :=
    List.countP_eq_zero.mp hfresh
  have hany : db.messages.any
      (fun r => r.sourceId == m.sourceId && r.messageId == m.messageId) = false := by
    rw [List.any_eq_false]
    exact hall
  have e1 : db.addMessage m =
      (true, { db with messages := db.messages ++ [m],
                       nextMessageId := db.nextMessageId + 1,
                       lastInsertRowid := db.nextMessageId }) := by
    rw [DB.addMessage, if_neg (by simp [hany])]
  have hpairm : pairP m.sourceId m.messageId m = true := by simp [pairP]
  have e2all : ((db.addMessage m).2.addMessage m2).1 = false ∧
      ((db.addMessage m).2.addMessage m2).2 = (db.addMessage m).2 := by
    rw [e1, DB.addMessage, if_pos ?hc]
    case hc =>
      simp only [hsid, hmid, List.any_append]
      simp [hpairm, pairP]
    exact ⟨rfl, rfl⟩
  refine ⟨by rw [e1], e2all.1, e2all.2, ?_⟩
  rw [e2all.2, e1]
  have hFK1 : ∀ x ∈ db.messages ++ [m],
      (db.sources.filter (fun src => src.id == x.sourceId)).length = 1 := by
    intro x hx
    rcases List.mem_append.mp hx with hx | hx
    · exact hFK x hx
    · rw [List.mem_singleton.mp hx]; exact hsrc
  have hq : ({ db with messages := db.messages ++ [m],
                       nextMessageId := db.nextMessageId + 1,
                       lastInsertRowid := db.nextMessageId } :
      DB).getMessagesByDateRange s e none =
      List.insertionSort dateLe ((db.messages ++ [m]).filter (inWindow s e none)) := by
    rw [DB.getMessagesByDateRange]
    exact congrArg _ (join_sources_eq_self db.sources _
      (fun x hx => hFK1 x (List.mem_of_mem_filter hx)))
  rw [hq, List.Perm.countP_eq _ (List.perm_insertionSort dateLe _),
    List.filter_append, List.countP_append]
  have hz : ((db.messages.filter (inWindow s e none)).countP
      (pairP m.sourceId m.messageId)) = 0 := by
    rw [List.countP_eq_zero]
    exact fun a ha => hall a (List.mem_of_mem_filter ha)
  have hwin : inWindow s e none m = true := by
    simp [inWindow, sourceTruthy, hs, he]
  rw [hz, List.filter_cons, hwin]
  simp [hpairm]

/-- C1 witness: a concrete fresh pair inserted twice into a one-source
database yields `true` then `false`, an unchanged table, and a single row
for the pair in the covering window query. -/
theorem addMessage_idempotent_witness :
    ((DB.mk [⟨1, "chan", "channel", none, none, 0⟩] 2 [] 1 [] 1 0).addMessage
        ⟨1, 7, 100, some "hi", none, none, none⟩).1 = true ∧
    (((DB.mk [⟨1, "chan", "channel", none, none, 0⟩] 2 [] 1 [] 1 0).addMessage
        ⟨1, 7, 100, some "hi", none, none, none⟩).2.addMessage
        ⟨1, 7, 100, some "bye", none, none, none⟩).1 = false ∧
    (((DB.mk [⟨1, "chan", "channel", none, none, 0⟩] 2 [] 1 [] 1 0).addMessage
        ⟨1, 7, 100, some "hi", none, none, none⟩).2.addMessage
        ⟨1, 7, 100, some "bye", none, none, none⟩).2 =
      ((DB.mk [⟨1, "chan", "channel", none, none, 0⟩] 2 [] 1 [] 1 0).addMessage
        ⟨1, 7, 100, some "hi", none, none, none⟩).2 ∧
    ((((DB.mk [⟨1, "chan", "channel", none, none, 0⟩] 2 [] 1 [] 1 0).addMessage
        ⟨1, 7, 100, some "hi", none, none, none⟩).2.addMessage
        ⟨1, 7, 100, some "bye", none, none, none⟩).2.getMessagesByDateRange 0 200
        none).countP (pairP 1 7) = 1 :=
  addMessage_idempotent (DB.mk [⟨1, "chan", "channel", none, none, 0⟩] 2 [] 1 [] 1 0)
    ⟨1, 7, 100, some "hi", none, none, none⟩ ⟨1, 7, 100, some "bye", none, none, none⟩
    (by decide) rfl rfl (by decide) (by decide) 0 200 (by decide) (by decide)

/-! ### Transport chunking: `TelegramService._split_message`

Embedded over `List Char` (one entry per Python character) so that the
per-line length accounting of the source is explicit.
-/

/-- Python `text.split("\n")`: maximal `'\n'`-free segments, with empty
segments for leading, trailing and consecutive newlines (`"".split("\n")`
is `[""]`). -/
def splitLines : List Char → List (List Char)
  | [] => [[]]
  | c :: cs =>
    if c = '\n' then [] :: splitLines cs
    else
      match splitLines cs with
      | l :: ls => (c :: l) :: ls
      | [] => [[c]]

/-- Python `"\n".join(parts)`. -/
def joinNL : List (List Char) → List Char
  | [] => []
  | [l] => l
  | l :: ls => l ++ '\n' :: joinNL ls

/-- The `while len(line) > max_length` loop of `_split_message`: the list
of full-width slices pushed to `parts` and the remainder left in
`current_part`.  (The `0 < maxLen` guard mirrors that Python's loop would
never terminate for `max_length = 0`; every use has `max_length = 4000`.)
-/
def hardSplit (maxLen : Nat) (line : List Char) : List (List Char) × List Char :=
  if h : maxLen < line.length ∧ 0 < maxLen then
    let r := hardSplit maxLen (line.drop maxLen)
    (line.take maxLen :: r.1, r.2)
  else
    ([], line)
termination_by line.length
decreasing_by simp [List.length_drop]; omega

/-- The `for line in lines` accumulator loop of `_split_message`:
`parts` is the finished list, `current` is `current_part`. -/
def splitLoop (maxLen : Nat) (parts : List (List Char)) (current : List Char) :
    List (List Char) → List (List Char)
  | [] => if current ≠ [] then parts ++ [current] else parts
  | line :: rest =>
    if maxLen < current.length + line.length + 1 then
      let parts1 := if current ≠ [] then parts ++ [current] else parts
      if maxLen < line.length then
        let r := hardSplit maxLen line
        splitLoop maxLen (parts1 ++ r.1) r.2 rest
      else
        splitLoop maxLen parts1 line rest
    else
      splitLoop maxLen parts (if current ≠ [] then current ++ '\n' :: line else line) rest

/-- `TelegramService._split_message(text, max_length)`. -/
def splitMessage (text : List Char) (maxLen : Nat) : List (List Char) :=
  splitLoop maxLen [] [] (splitLines text)

theorem splitLines_ne_nil (cs : List Char) : splitLines cs ≠ [] := by
  cases cs with
  | nil => simp [splitLines]
  | cons c cs =>
    rw [splitLines]
    by_cases hc : c = '\n'
    · simp [hc]
    · rw [if_neg hc]
      cases h : splitLines cs <;> simp

theorem joinNL_cons (l : List Char) (ls : List (List Char)) (h : ls ≠ []) :
    joinNL (l :: ls) = l ++ '\n' :: joinNL ls := by
  cases ls with
  | nil => exact absurd rfl h
  | cons a as => rfl

theorem joinNL_splitLines (cs : List Char) : joinNL (splitLines cs) = cs := by
  induction cs with
  | nil => rfl
  | cons c cs ih =>
    rw [splitLines]
    by_cases hc : c = '\n'
    · rw [if_pos hc, joinNL_cons _ _ (splitLines_ne_nil cs), ih, hc]
      rfl
    · rw [if_neg hc]
      cases h : splitLines cs with
      | nil => exact absurd h (splitLines_ne_nil cs)
      | cons l ls =>
        rw [h] at ih
        cases ls with
        | nil =>
          simp only [joinNL] at ih ⊢
          rw [ih]
        | cons l2 ls2 =>
          rw [joinNL_cons _ _ (by simp)] at ih
          rw [joinNL_cons _ _ (by simp), List.cons_append, ih]

theorem joinNL_append_singleton (g : List (List Char)) (line : List Char)
    (hg : g ≠ []) : joinNL (g ++ [line]) = joinNL g ++ '\n' :: line := by
  induction g with
  | nil => exact absurd rfl hg
  | cons l ls ih =>
    cases ls with
    | nil => rfl
    | cons l2 ls2 =>
      rw [List.cons_append, joinNL_cons _ _ (by simp),
        joinNL_cons _ _ (by simp), ih (by simp), List.append_assoc]
      rfl

theorem joinNL_ne_nil (g : List (List Char)) (hg : g ≠ [])
    (helem : ∀ l ∈ g, l ≠ []) : joinNL g ≠ [] := by
  cases g with
  | nil => exact absurd rfl hg
  | cons l ls =>
    cases ls with
    | nil => exact helem l (List.mem_cons_self l [])
    | cons l2 ls2 =>
      rw [joinNL_cons _ _ (by simp)]
      simp

theorem join_ne_nil (gs : List (List (List Char))) (hgs : gs ≠ [])
    (h : ∀ g ∈ gs, g ≠ []) : gs.flatten ≠ [] := by
  cases gs with
  | nil => exact absurd rfl hgs
  | cons g gs =>
    rw [List.flatten_cons]
    have hg := h g (List.mem_cons_self g gs)
    cases g with
    | nil => exact absurd rfl hg
    | cons l ls => simp

theorem joinNL_append (a b : List (List Char)) (ha : a ≠ []) (hb : b ≠ []) :
    joinNL (a ++ b) = joinNL a ++ '\n' :: joinNL b := by
  induction a with
  | nil => exact absurd rfl ha
  | cons l ls ih =>
    cases ls with
    | nil =>
      rw [List.singleton_append, joinNL_cons _ _ hb]
      rfl
    | cons l2 ls2 =>
      rw [List.cons_append, joinNL_cons _ _ (by simp),
        joinNL_cons _ _ (by simp), ih (by simp), List.append_assoc]
      rfl

theorem joinNL_map_joinNL (gs : List (List (List Char)))
    (h : ∀ g ∈ gs, g ≠ []) : joinNL (gs.map joinNL) = joinNL gs.flatten := by
  induction gs with
  | nil => rfl
  | cons g gs ih =>
    by_cases hgs : gs = []
    · subst hgs
      simp [joinNL, List.flatten]
    · have hg := h g (List.mem_cons_self g gs)
      have hrest : ∀ x ∈ gs, x ≠ [] := fun x hx => h x (List.mem_cons_of_mem g hx)
      rw [List.map_cons, List.flatten_cons,
        joinNL_cons _ _ (by simpa using hgs),
        joinNL_append g gs.flatten hg (join_ne_nil gs hgs hrest),
        ih hrest]

theorem hardSplit_le (maxLen : Nat) (hpos : 0 < maxLen) (line : List Char) :
    (∀ p ∈ (hardSplit maxLen line).1, p.length ≤ maxLen) ∧
    (hardSplit maxLen line).2.length ≤ maxLen := by
  induction line using hardSplit.induct maxLen with
  | case1 line h ih =>
    rw [hardSplit, dif_pos h]
    dsimp only
    refine ⟨?_, ih.2⟩
    intro p hp
    rcases List.mem_cons.mp hp with hp | hp
    · rw [hp, List.length_take]; omega
    · exact ih.1 p hp
  | case2 line h =>
    rw [hardSplit, dif_neg h]
    dsimp only
    exact ⟨by simp, by omega⟩

theorem splitLoop_parts_le (maxLen : Nat) (hpos : 0 < maxLen) :
    ∀ (lines : List (List Char)) (parts : List (List Char)) (current : List Char),
      (∀ p ∈ parts, p.length ≤ maxLen) → current.length ≤ maxLen →
      ∀ p ∈ splitLoop maxLen parts current lines, p.length ≤ maxLen := by
  intro lines
  induction lines with
  | nil =>
    intro parts current hparts hcur p hp
    rw [splitLoop] at hp
    by_cases hc : current ≠ []
    · rw [if_pos hc] at hp
      rcases List.mem_append.mp hp with hp | hp
      · exact hparts p hp
      · rw [List.mem_singleton.mp hp]; exact hcur
    · rw [if_neg hc] at hp
      exact hparts p hp
  | cons line rest ih =>
    intro parts current hparts hcur p hp
    rw [splitLoop] at hp
    have hparts1 : ∀ q ∈ (if current ≠ [] then parts ++ [current] else parts),
        q.length ≤ maxLen := by
      intro q hq
      by_cases hc : current ≠ []
      · rw [if_pos hc] at hq
        rcases List.mem_append.mp hq with hq | hq
        · exact hparts q hq
        · rw [List.mem_singleton.mp hq]; exact hcur
      · rw [if_neg hc] at hq
        exact hparts q hq
    by_cases h1 : maxLen < current.length + line.length + 1
    · rw [if_pos h1] at hp
      by_cases h2 : maxLen < line.length
      · rw [if_pos h2] at hp
        refine ih _ _ ?_ ?_ p hp
        · intro q hq
          rcases List.mem_append.mp hq with hq | hq
          · exact hparts1 q hq
          · exact (hardSplit_le maxLen hpos line).1 q hq
        · exact (hardSplit_le maxLen hpos line).2
      · rw [if_neg h2] at hp
        exact ih _ _ hparts1 (by omega) p hp
    · rw [if_neg h1] at hp
      refine ih _ _ hparts ?_ p hp
      by_cases hc : current ≠ []
      · rw [if_pos hc]
        simp only [List.length_append, List.length_cons]
        omega
      · rw [if_neg hc]
        omega

theorem splitLoop_groups (maxLen : Nat) (rest : List (List Char))
    (gs : List (List (List Char))) (g : List (List Char))
    (hg : g ≠ []) (hgelem : ∀ l ∈ g, l ≠ [])
    (hrest : ∀ l ∈ rest, l ≠ [] ∧ l.length ≤ maxLen)
    (hgs : ∀ grp ∈ gs, grp ≠ []) :
    ∃ gsAll : List (List (List Char)),
      splitLoop maxLen (gs.map joinNL) (joinNL g) rest = gsAll.map joinNL ∧
      gsAll.flatten = gs.flatten ++ g ++ rest ∧
      (∀ grp ∈ gsAll, grp ≠ []) := by
  induction rest generalizing gs g with
  | nil =>
    refine ⟨gs ++ [g], ?_, ?_, ?_⟩
    · rw [splitLoop, if_pos (joinNL_ne_nil g hg hgelem), List.map_append]
      rfl
    · simp
    · intro grp hgrp
      rcases List.mem_append.mp hgrp with hgrp | hgrp
      · exact hgs grp hgrp
      · rw [List.mem_singleton.mp hgrp]; exact hg
  | cons line rest ih =>
    have hline := hrest line (List.mem_cons_self line rest)
    have hrest' : ∀ l ∈ rest, l ≠ [] ∧ l.length ≤ maxLen :=
      fun l hl => hrest l (List.mem_cons_of_mem line hl)
    rw [splitLoop]
    by_cases h1 : maxLen < (joinNL g).length + line.length + 1
    · rw [if_pos h1, if_pos (joinNL_ne_nil g hg hgelem),
        if_neg (by omega : ¬ maxLen < line.length)]
      have hg1 : ([line] : List (List Char)) ≠ [] := by simp
      have hg1elem : ∀ l ∈ ([line] : List (List Char)), l ≠ [] := by
        intro l hl; rw [List.mem_singleton.mp hl]; exact hline.1
      have hgs1 : ∀ grp ∈ gs ++ [g], grp ≠ [] := by
        intro grp hgrp
        rcases List.mem_append.mp hgrp with hgrp | hgrp
        · exact hgs grp hgrp
        · rw [List.mem_singleton.mp hgrp]; exact hg
      obtain ⟨gsAll, e1, e2, e3⟩ := ih (gs ++ [g]) [line] hg1 hg1elem hrest' hgs1
      rw [List.map_append] at e1
      refine ⟨gsAll, ?_, ?_, e3⟩
      · rw [← e1]; rfl
      · rw [e2]; simp
    · rw [if_neg h1, if_pos (joinNL_ne_nil g hg hgelem),
        ← joinNL_append_singleton g line hg]
      have hg2 : g ++ [line] ≠ [] := by simp
      have hg2elem : ∀ l ∈ g ++ [line], l ≠ [] := by
        intro l hl
        rcases List.mem_append.mp hl with hl | hl
        · exact hgelem l hl
        · rw [List.mem_singleton.mp hl]; exact hline.1
      obtain ⟨gsAll, e1, e2, e3⟩ := ih gs (g ++ [line]) hg2 hg2elem hrest' hgs
      refine ⟨gsAll, e1, ?_, e3⟩
      rw [e2]; simp

theorem splitLoop_nil_start (maxLen : Nat) (l0 : List Char)
    (rest : List (List Char)) (h : l0.length ≤ maxLen) :
    splitLoop maxLen [] [] (l0 :: rest) = splitLoop maxLen [] l0 rest := by
  have h2 : ¬ maxLen < l0.length := by omega
  simp [splitLoop, h2]

/-- C5 as amended: every part produced by `_split_message(text, 4000)` has
length at most 4000; and for texts in which every line is nonempty and at
most 4000 characters, the parts break only on line boundaries (each part is
the newline-join of a consecutive nonempty group of the original lines) and
joining the parts with newlines reproduces the text exactly.  (With empty
lines allowed the reconstruction conjunct fails: an empty line falling on a
part boundary is dropped — see the counterexample.) -/
theorem splitMessage_bounded_line_boundaries (text : List Char) :
    (∀ p ∈ splitMessage text 4000, p.length ≤ 4000) ∧
    ((∀ l ∈ splitLines text, l ≠ [] ∧ l.length ≤ 4000) →
      (∃ gs : List (List (List Char)), splitMessage text 4000 = gs.map joinNL ∧
        gs.flatten = splitLines text ∧ (∀ g ∈ gs, g ≠ [])) ∧
      joinNL (splitMessage text 4000) = text) := by
  constructor
  · intro p hp
    exact splitLoop_parts_le 4000 (by omega) (splitLines text) [] []
      (by simp) (by simp) p hp
  · intro hlines
    cases hsl : splitLines text with
    | nil => exact absurd hsl (splitLines_ne_nil text)
    | cons l0 rest =>
      have hl0 : l0 ≠ [] ∧ l0.length ≤ 4000 := by
        refine hlines l0 ?_
        rw [hsl]; exact List.mem_cons_self l0 rest
      have hrest : ∀ l ∈ rest, l ≠ [] ∧ l.length ≤ 4000 := by
        intro l hl
        refine hlines l ?_
        rw [hsl]; exact List.mem_cons_of_mem l0 hl
      have hstart : splitMessage text 4000 = splitLoop 4000 [] l0 rest := by
        rw [splitMessage, hsl, splitLoop_nil_start 4000 l0 rest hl0.2]
      obtain ⟨gsAll, e1, e2, e3⟩ := splitLoop_groups 4000 rest [] [l0] (by simp)
        (by intro l hl; rw [List.mem_singleton.mp hl]; exact hl0.1)
        hrest (by simp)
      have e1' : splitLoop 4000 [] l0 rest = gsAll.map joinNL := e1
      have hflat : gsAll.flatten = l0 :: rest := by
        rw [e2]; simp
      refine ⟨⟨gsAll, by rw [hstart, e1'], hflat, e3⟩, ?_⟩
      rw [hstart, e1', joinNL_map_joinNL gsAll e3, hflat, ← hsl, joinNL_splitLines]

/-- C5 amended witness: a concrete two-line text is reassembled exactly. -/
theorem splitMessage_bounded_line_boundaries_witness :
    joinNL (splitMessage ['a', 'b', '\n', 'c', 'd'] 4000) = ['a', 'b', '\n', 'c', 'd'] :=
  ((splitMessage_bounded_line_boundaries ['a', 'b', '\n', 'c', 'd']).2 (by decide)).2

theorem splitLines_no_newline (l : List Char) (h : ∀ c ∈ l, c ≠ '\n') :
    splitLines l = [l] := by
  induction l with
  | nil => rfl
  | cons c cs ih =>
    rw [splitLines, if_neg (h c (List.mem_cons_self c cs)),
      ih (fun x hx => h x (List.mem_cons_of_mem c hx))]

theorem splitLines_append_newline (l rest : List Char) (h : ∀ c ∈ l, c ≠ '\n') :
    splitLines (l ++ '\n' :: rest) = l :: splitLines rest := by
  induction l with
  | nil => rw [List.nil_append, splitLines, if_pos rfl]
  | cons c cs ih =>
    rw [List.cons_append, splitLines, if_neg (h c (List.mem_cons_self c _)),
      ih (fun x hx => h x (List.mem_cons_of_mem c hx))]

/-- The premise of the chunking claim on one line: at most 4000 characters. -/
def lineOk (maxLen : Nat) (l : List Char) : Bool := l.length ≤ maxLen

/-- A 9002-character text with no line over 4000 characters: a 4000-`'a'`
line, an empty line, and a 4000-`'b'` line. -/
def splitCounterexample : List Char :=
  List.replicate 4000 'a' ++ '\n' :: '\n' :: List.replicate 4000 'b'

/-- The symbolic run of the `_split_message` loop on a text of shape
`a ++ "\n" ++ "" ++ "\n" ++ b` where `a` and `b` are exactly `maxLen`-long
lines: the empty middle line triggers a part flush and is then absorbed
into the next part's start, losing its newline. -/
theorem splitLoop_three (maxLen : Nat) (a b : List Char)
    (ha : a.length = maxLen) (hb : b.length = maxLen)
    (hane : a ≠ []) (hbne : b ≠ []) (hpos : 0 < maxLen) :
    splitLoop maxLen [] [] [a, [], b] = [a, b] := by
  have step1 : splitLoop maxLen [] [] [a, [], b] = splitLoop maxLen [] a [[], b] := by
    rw [splitLoop,
      if_pos (show maxLen < ([] : List Char).length + a.length + 1 by
        rw [List.length_nil, ha]; omega),
      if_neg (show ¬ maxLen < a.length by rw [ha]; omega),
      if_neg (show ¬ ([] : List Char) ≠ [] by simp)]
  have step2 : splitLoop maxLen [] a [[], b] = splitLoop maxLen [a] [] [b] := by
    rw [splitLoop,
      if_pos (show maxLen < a.length + ([] : List Char).length + 1 by
        rw [List.length_nil, ha]; omega),
      if_neg (show ¬ maxLen < ([] : List Char).length by rw [List.length_nil]; omega),
      if_pos (show a ≠ [] from hane), List.nil_append]
  have step3 : splitLoop maxLen [a] [] [b] = splitLoop maxLen [a] b [] := by
    conv_lhs => rw [splitLoop]
    rw [if_pos (show maxLen < ([] : List Char).length + b.length + 1 by
        rw [List.length_nil, hb]; omega),
      if_neg (show ¬ maxLen < b.length by rw [hb]; omega),
      if_neg (show ¬ ([] : List Char) ≠ [] by simp)]
  have step4 : splitLoop maxLen [a] b [] = [a, b] := by
    rw [splitLoop, if_pos (show b ≠ [] from hbne)]
    rfl
  rw [step1, step2, step3, step4]

/-- C5 counterexample: `splitCounterexample` has every line at or under
4000 characters, yet joining the parts of `_split_message(·, 4000)` with
newlines does not reproduce the text — the empty line sits on a part
boundary and its newline is dropped (the result is one character short). -/
theorem splitMessage_not_reconstructed :
    (splitLines splitCounterexample).all (lineOk 4000) = true ∧
    joinNL (splitMessage splitCounterexample 4000) ≠ splitCounterexample := by
  have ha : ∀ c ∈ List.replicate 4000 'a', c ≠ '\n' := by
    intro c hc
    rw [List.eq_of_mem_replicate hc]; decide
  have hb : ∀ c ∈ List.replicate 4000 'b', c ≠ '\n' := by
    intro c hc
    rw [List.eq_of_mem_replicate hc]; decide
  have hsla : splitLines splitCounterexample =
      [List.replicate 4000 'a', [], List.replicate 4000 'b'] := by
    rw [splitCounterexample, splitLines_append_newline _ _ ha]
    rw [show splitLines ('\n' :: List.replicate 4000 'b')
        = [] :: splitLines (List.replicate 4000 'b') from by
      rw [splitLines, if_pos rfl]]
    rw [splitLines_no_newline _ hb]
  have hloop : splitLoop 4000 [] [] [List.replicate 4000 'a', [], List.replicate 4000 'b']
      = [List.replicate 4000 'a', List.replicate 4000 'b'] :=
    splitLoop_three 4000 (List.replicate 4000 'a') (List.replicate 4000 'b')
      (List.length_replicate 4000 'a') (List.length_replicate 4000 'b')
      (List.ne_nil_of_length_pos (by rw [List.length_replicate]; omega))
      (List.ne_nil_of_length_pos (by rw [List.length_replicate]; omega))
      (by omega)
  have hl1 : lineOk 4000 (List.replicate 4000 'a') = true := by
    simp only [lineOk, decide_eq_true_eq, List.length_replicate]
    omega
  have hl2 : lineOk 4000 ([] : List Char) = true := by
    simp only [lineOk, decide_eq_true_eq, List.length_nil]
    omega
  have hl3 : lineOk 4000 (List.replicate 4000 'b') = true := by
    simp only [lineOk, decide_eq_true_eq, List.length_replicate]
    omega
  constructor
  · rw [hsla, List.all_cons, List.all_cons, List.all_cons, List.all_nil,
      hl1, hl2, hl3]
    rfl
  · rw [splitMessage, hsla, hloop]
    intro habs
    have hlen := congrArg List.length habs
    simp only [splitCounterexample, joinNL, List.length_append, List.length_cons,
      List.length_replicate] at hlen
    omega

end Gazeta
